import Mathlib

/-!
Verification development for the preinstall-guardian package scanner.

The scanner (src/index.js) is embedded shallowly:
* the 26 suspicious regular expressions are modelled by a small regex
  language `Rx` with a backtracking matcher over character lists whose
  candidate order follows JavaScript semantics (leftmost match, greedy
  single-character-class stars, first alternative preferred);
* `analyzeScript`, `calculateOverallRisk`, `generateFindings` and
  `scanPackageJson` are translated function by function;
* the filesystem seen by `scanNodeModules` is a tree of named nodes, a
  metadata file carrying either parseable JSON, malformed text, or an
  unreadable marker; JSON documents are modelled by `JsonValue`.

Definitions named `spec...` formalise sentences of the design document and
are used only in theorem statements, never inside the embedding.
-/

/-- JavaScript regex class `\s` restricted to the ASCII whitespace
characters that can occur in the scanned scripts. -/
def jsWhitespace (c : Char) : Bool :=
  c = ' ' || c = '\t' || c = '\n' || c = '\r' || c = '\x0b' || c = '\x0c'

/-- JavaScript regex class `.` (without the `s` flag): any character except
line terminators. -/
def jsDot (c : Char) : Bool :=
  !(c = '\n' || c = '\r')

/-- The fragment of regular expressions needed for the 26 patterns of the
catalog and the 4 combination checks: case-insensitive literals, single
character classes, greedy stars of character classes, option, sequence and
alternation.  Every source pattern carries the `i` flag, so literal
comparison is case-insensitive throughout. -/
inductive Rx where
  | lit (s : String)
  | cls (p : Char → Bool)
  | starCls (p : Char → Bool)
  | opt (r : Rx)
  | seq (a b : Rx)
  | alt (a b : Rx)

/-- Case-insensitive character comparison, as the `i` flag prescribes. -/
def charEqCI (a b : Char) : Bool :=
  a.toLower == b.toLower

/-- Strip a case-insensitive literal prefix, returning the rest. -/
def stripPrefixCI : List Char → List Char → Option (List Char)
  | [], s => some s
  | _ :: _, [] => none
  | p :: ps, c :: cs => if charEqCI p c then stripPrefixCI ps cs else none

/-- All ways a greedy star of the class `p` can consume a prefix, longest
consumption first (JavaScript greedy order); each element is the remaining
suffix. -/
def takeCls (p : Char → Bool) : List Char → List (List Char)
  | [] => [[]]
  | c :: cs => if p c then takeCls p cs ++ [c :: cs] else [c :: cs]

/-- Run a regex at the start of the input, producing the remaining suffixes
of all possible matches in JavaScript backtracking priority order. -/
def Rx.run : Rx → List Char → List (List Char)
  | .lit s, input =>
    match stripPrefixCI s.toList input with
    | some rest => [rest]
    | none => []
  | .cls _, [] => []
  | .cls p, c :: cs => if p c then [cs] else []
  | .starCls p, input => takeCls p input
  | .opt r, input => r.run input ++ [input]
  | .seq a b, input => (a.run input).flatMap fun rest => b.run rest
  | .alt a b, input => a.run input ++ b.run input

/-- Length of the match chosen at the current position, if any: JavaScript
takes the first candidate of the priority list. -/
def Rx.matchAt (r : Rx) (input : List Char) : Option Nat :=
  match r.run input with
  | rest :: _ => some (input.length - rest.length)
  | [] => none

/-- Search for the leftmost match: index of the first position where the
regex matches, together with the length of the chosen match there. -/
def firstMatchAux (r : Rx) : List Char → Option (Nat × Nat)
  | [] =>
    match r.matchAt [] with
    | some len => some (0, len)
    | none => none
  | c :: tail =>
    match r.matchAt (c :: tail) with
    | some len => some (0, len)
    | none => (firstMatchAux r tail).map fun p => (p.1 + 1, p.2)

/-- Leftmost match of a regex in a string: start index and matched text. -/
def Rx.firstMatch (r : Rx) (s : String) : Option (Nat × String) :=
  (firstMatchAux r s.toList).map fun p => (p.1, ((s.toList.drop p.1).take p.2).asString)

/-- JavaScript `regex.test(str)`. -/
def Rx.test (r : Rx) (s : String) : Bool :=
  (firstMatchAux r s.toList).isSome

/-- The seven comment groups of the source pattern list (index.js, the
`suspiciousPatterns` array). -/
inductive PatCategory where
  | network
  | filesystem
  | shellExec
  | credentialEnv
  | tokenName
  | obfuscation
  | cryptoWallet
  | malwareFile
deriving DecidableEq, Inhabited

/-- Helper regex `https?:\/\/` shared by the catalog and the network
combination check. -/
def rxHttp : Rx :=
  .seq (.lit "http") (.seq (.opt (.lit "s")) (.lit "://"))

/-- Helper for patterns of the shape `name(Sync)?\s*\(`. -/
def rxCallSync (name : String) : Rx :=
  .seq (.lit name) (.seq (.opt (.lit "Sync")) (.seq (.starCls jsWhitespace) (.lit "(")))

/-- Helper for patterns of the shape `name\s*\(`. -/
def rxCall (name : String) : Rx :=
  .seq (.lit name) (.seq (.starCls jsWhitespace) (.lit "("))

/-- Helper for patterns of the shape `a.*b`. -/
def rxNear (a b : String) : Rx :=
  .seq (.lit a) (.seq (.starCls jsDot) (.lit b))

/-- The pattern catalog `this.suspiciousPatterns` of index.js, in source
order, each entry tagged with the category named by the source comment
above it and with the JavaScript source text of the regex. -/
def suspiciousPatterns : List (PatCategory × String × Rx) :=
  [ (.network, "fetch\\s*\\(", rxCall "fetch"),
    (.network, "axios\\s*\\(", rxCall "axios"),
    (.network, "https?:\\/\\/", rxHttp),
    (.network, "webhook\\.site", .lit "webhook.site"),
    (.filesystem, "writeFile(Sync)?\\s*\\(", rxCallSync "writeFile"),
    (.filesystem, "unlink(Sync)?\\s*\\(", rxCallSync "unlink"),
    (.filesystem, "rmdir\\s*\\(", rxCall "rmdir"),
    (.filesystem, "rm\\s+-rf", .seq (.lit "rm") (.seq (.cls jsWhitespace) (.seq (.starCls jsWhitespace) (.lit "-rf")))),
    (.shellExec, "exec(Sync)?\\s*\\(", rxCallSync "exec"),
    (.shellExec, "spawn(Sync)?\\s*\\(", rxCallSync "spawn"),
    (.shellExec, "child_process", .lit "child_process"),
    (.credentialEnv, "process\\.env", .lit "process.env"),
    (.credentialEnv, "\\.ssh", .lit ".ssh"),
    (.credentialEnv, "\\.aws", .lit ".aws"),
    (.credentialEnv, "\\.git", .lit ".git"),
    (.tokenName, "github.*token", rxNear "github" "token"),
    (.tokenName, "npm.*token", rxNear "npm" "token"),
    (.tokenName, "api.*key", rxNear "api" "key"),
    (.obfuscation, "eval\\s*\\(", rxCall "eval"),
    (.obfuscation, "Function\\s*\\(", rxCall "Function"),
    (.obfuscation, "Buffer\\.from.*base64", rxNear "Buffer.from" "base64"),
    (.cryptoWallet, "crypto.*wallet", rxNear "crypto" "wallet"),
    (.cryptoWallet, "ethereum", .lit "ethereum"),
    (.cryptoWallet, "bitcoin", .lit "bitcoin"),
    (.malwareFile, "setup_bun\\.js", .lit "setup_bun.js"),
    (.malwareFile, "bun_environment\\.js", .lit "bun_environment.js") ]

/-- The risk tiers of the scanner. -/
inductive RiskLevel where
  | CRITICAL
  | HIGH
  | MEDIUM
  | LOW
  | SAFE
deriving DecidableEq, Inhabited

/-- The `this.riskScores` table of index.js. -/
def riskScores : RiskLevel → Nat
  | .CRITICAL => 100
  | .HIGH => 75
  | .MEDIUM => 50
  | .LOW => 25
  | .SAFE => 0

/-- Result of JavaScript `str.match(re)` for a regex carrying the `g` flag,
as consumed by `analyzeScript`: when the regex occurs in the string, the
returned array holds every matched substring, element 0 being the leftmost
one, and its `index` property is undefined (a global match result carries
no index).  Only element 0 and `index` are read by the analyzer, so the
model keeps exactly those. -/
structure JsGMatch where
  first : String
  index : Option Nat
deriving DecidableEq, Inhabited

/-- `scriptContent.match(pattern)` for the `gi`-flagged catalog patterns:
`none` models `null`; otherwise the leftmost matched substring together
with the undefined `index` property. -/
def jsMatchG (rx : Rx) (s : String) : Option JsGMatch :=
  (rx.firstMatch s).map fun m => { first := m.2, index := none }

/-- `getContext(content, index, radius)` from index.js.  The `index`
argument is an `Option Nat` because the call site passes `found.index`,
which is undefined for global-regex match results: then `index - radius`
and `index + radius` are NaN, `Math.max(0, NaN)` and `Math.min(len, NaN)`
are NaN, and `content.substring(NaN, NaN)` is `content.substring(0, 0)`,
the empty string. -/
def getContext (content : String) (index : Option Nat) (radius : Nat) : String :=
  match index with
  | none => ""
  | some i =>
    let start := i - radius
    let stop := min content.length (i + radius)
    ((content.toList.drop start).take (stop - start)).asString

/-- One recorded suspicious-pattern hit: regex source text, matched
substring, and context window. -/
structure PatternMatch where
  pattern : String
  matched : String
  context : String
deriving DecidableEq, Inhabited

/-- Result of analysing one lifecycle script. -/
structure ScriptAnalysis where
  scriptName : String
  scriptContent : String
  foundMatches : List PatternMatch
  riskLevel : RiskLevel
  risks : List String
  score : Nat
deriving DecidableEq, Inhabited

/-- The note pushed by the category-combination override. -/
def combinationNote : String :=
  "Combines network access with environment variable reading"

/-- The note pushed when an obfuscation token is present. -/
def obfuscationNote : String :=
  "Uses code obfuscation techniques"

/-- Combination check `/fetch|axios|https?:\/\//i` of `analyzeScript`. -/
def hasNetworkRx : Rx :=
  .alt (.lit "fetch") (.alt (.lit "axios") rxHttp)

/-- Combination check `/process\.env/i` of `analyzeScript`. -/
def hasEnvRx : Rx :=
  .lit "process.env"

/-- Combination check `/exec|spawn|child_process/i` of `analyzeScript`. -/
def hasExecRx : Rx :=
  .alt (.lit "exec") (.alt (.lit "spawn") (.lit "child_process"))

/-- Combination check `/eval|Function\(|base64/i` of `analyzeScript`. -/
def hasObfuscationRx : Rx :=
  .alt (.lit "eval") (.alt (.lit "Function(") (.lit "base64"))

/-- `analyzeScript(scriptName, scriptContent)` from index.js: collect one
match record per catalog pattern that occurs, derive the tier from the
match count, then apply the combination override and collect the notes. -/
def analyzeScript (scriptName scriptContent : String) : ScriptAnalysis :=
  let foundMatches := suspiciousPatterns.filterMap fun pat =>
    (jsMatchG pat.2.2 scriptContent).map fun found =>
      ({ pattern := pat.2.1, matched := found.first,
         context := getContext scriptContent found.index 50 } : PatternMatch)
  let countLevel : RiskLevel :=
    if foundMatches.length ≥ 5 then .CRITICAL
    else if foundMatches.length ≥ 3 then .HIGH
    else if foundMatches.length ≥ 1 then .MEDIUM
    else .LOW
  let hasNetwork := hasNetworkRx.test scriptContent
  let hasEnv := hasEnvRx.test scriptContent
  let hasExec := hasExecRx.test scriptContent
  let hasObfuscation := hasObfuscationRx.test scriptContent
  let riskLevel :=
    if (hasNetwork && hasEnv) || (hasExec && hasObfuscation) then RiskLevel.CRITICAL
    else countLevel
  let risks :=
    (if (hasNetwork && hasEnv) || (hasExec && hasObfuscation) then [combinationNote] else []) ++
    (if hasObfuscation then [obfuscationNote] else [])
  { scriptName := scriptName, scriptContent := scriptContent, foundMatches := foundMatches,
    riskLevel := riskLevel, risks := risks, score := riskScores riskLevel }

example : (analyzeScript "install" "echo hello").riskLevel = .LOW := by decide

example : (analyzeScript "install" "fetch( process.env").riskLevel = .CRITICAL := by decide

example : (analyzeScript "install" "webhook.site .ssh").riskLevel = .MEDIUM := by decide

/-- JSON documents, the possible results of `JSON.parse`.  Numbers are kept
as integers: no claim depends on fractional values. -/
inductive JsonValue where
  | null
  | bool (b : Bool)
  | num (n : Int)
  | str (s : String)
  | arr (elems : List JsonValue)
  | obj (fields : List (String × JsonValue))
deriving Inhabited

/-- JavaScript truthiness of a parsed JSON value. -/
def truthy : JsonValue → Bool
  | .null => false
  | .bool b => b
  | .num n => n != 0
  | .str s => s != ""
  | .arr _ => true
  | .obj _ => true

/-- JavaScript property access `v[key]` for the keys used by the scanner
(`name`, `version`, `scripts` and the six lifecycle names): on an object it
looks the key up, on any other non-null value it yields undefined (`none`).
Access on `null` throws and is handled at the call sites. -/
def getField : JsonValue → String → Option JsonValue
  | .obj fields, key => (fields.find? fun f => f.1 == key).map fun f => f.2
  | _, _ => none

/-- Whether a JSON value is a string. -/
def isStr : JsonValue → Bool
  | .str _ => true
  | _ => false

/-- JavaScript `v || dflt` as used for the `name` and `version` fields. -/
def jsOr (v : Option JsonValue) (dflt : JsonValue) : JsonValue :=
  match v with
  | some x => if truthy x then x else dflt
  | none => dflt

/-- One entry of the `findings` list. -/
structure Finding where
  type : String
  severity : RiskLevel
  script : String
  message : String
  details : List String
  findingMatches : List PatternMatch
deriving DecidableEq, Inhabited

/-- The per-package result object built by `scanPackageJson`.  The source
field `matches` of a finding is called `findingMatches` here because
`matches` is a reserved word in Lean. -/
structure PackageScanResult where
  packageName : JsonValue
  version : JsonValue
  scripts : List (String × ScriptAnalysis)
  overallRisk : RiskLevel
  totalMatches : Nat
  findings : List Finding
deriving Inhabited

/-- The `dangerousScripts` list of index.js: the six lifecycle keys, in the
fixed check order. -/
def dangerousScripts : List String :=
  ["preinstall", "install", "postinstall", "preuninstall", "uninstall", "postuninstall"]

/-- Errors a scan can raise, named after the JavaScript exceptions:
`notFound` is the explicit `package.json not found` error, `ioError` a
failing `readFileSync` (unreadable file or a directory), `parseError` a
`SyntaxError` from `JSON.parse`, and `typeError` a `TypeError` from
a property access on `null` or from calling `.match` on a non-string. -/
inductive ScanErr where
  | notFound
  | ioError
  | parseError
  | typeError
deriving DecidableEq, Inhabited

/-- The lifecycle loop of `scanPackageJson`: walk the six keys in order;
a truthy string value is analysed, a truthy non-string value makes
`scriptContent.match(pattern)` throw a `TypeError`, anything falsy or
absent is skipped. -/
def analyzeKeys (scriptsVal : JsonValue) : List String → Except ScanErr (List (String × ScriptAnalysis))
  | [] => .ok []
  | key :: keys =>
    match getField scriptsVal key with
    | some v =>
      if truthy v then
        match v with
        | .str s =>
          match analyzeKeys scriptsVal keys with
          | .ok rest => .ok ((key, analyzeScript key s) :: rest)
          | .error e => .error e
        | _ => .error .typeError
      else analyzeKeys scriptsVal keys
    | none => analyzeKeys scriptsVal keys

/-- `calculateOverallRisk` from index.js, on the list of analyses of the
result object.  `Math.max(...)` over the non-empty list of non-negative
scores is folded with seed 0. -/
def calculateOverallRisk (scriptAnalyses : List ScriptAnalysis) : RiskLevel :=
  if scriptAnalyses.isEmpty then .SAFE
  else
    let maxScore := (scriptAnalyses.map fun s => s.score).foldl Nat.max 0
    if maxScore ≥ riskScores .CRITICAL then .CRITICAL
    else if maxScore ≥ riskScores .HIGH then .HIGH
    else if maxScore ≥ riskScores .MEDIUM then .MEDIUM
    else if maxScore ≥ riskScores .LOW then .LOW
    else .SAFE

/-- `generateFindings` from index.js: one finding per recorded analysis, in
recording order. -/
def generateFindings (scripts : List (String × ScriptAnalysis)) : List Finding :=
  scripts.map fun e =>
    { type := "lifecycle_script", severity := e.2.riskLevel, script := e.1,
      message := e.1 ++ " script detected with " ++ toString e.2.foundMatches.length
        ++ " suspicious pattern(s)",
      details := e.2.risks, findingMatches := e.2.foundMatches }

/-- The result object of `scanPackageJson` for parsed metadata and the
recorded lifecycle analyses: `totalMatches` is accumulated over the
recorded scripts, then the overall risk and the findings are derived. -/
def buildResult (packageJson : JsonValue) (scripts : List (String × ScriptAnalysis)) : PackageScanResult :=
  { packageName := jsOr (getField packageJson "name") (.str "unknown"),
    version := jsOr (getField packageJson "version") (.str "unknown"),
    scripts := scripts,
    overallRisk := calculateOverallRisk (scripts.map fun e => e.2),
    totalMatches := (scripts.map fun e => e.2.foundMatches.length).sum,
    findings := generateFindings scripts }

/-- The `scripts` handling of `scanPackageJson`: if the parsed metadata has
a truthy `scripts` field, run the lifecycle loop, otherwise record no
analyses. -/
def scriptsResult (packageJson : JsonValue) : Except ScanErr (List (String × ScriptAnalysis)) :=
  match getField packageJson "scripts" with
  | some sv => if truthy sv then analyzeKeys sv dangerousScripts else .ok []
  | none => .ok []

/-- `scanPackageJson` after the file has been read and parsed: the access
`packageJson.name` throws a `TypeError` when the document is `null`;
otherwise the lifecycle loop runs and the result object is built. -/
def scanParsed (packageJson : JsonValue) : Except ScanErr PackageScanResult :=
  match packageJson with
  | .null => .error .typeError
  | _ =>
    match scriptsResult packageJson with
    | .error e => .error e
    | .ok scripts => .ok (buildResult packageJson scripts)

/-- Content of a filesystem file: metadata that parses to a JSON document,
malformed text on which `JSON.parse` throws, or an unreadable file on which
`readFileSync` throws. -/
inductive FileData where
  | jsonData (v : JsonValue)
  | malformed
  | unreadable
deriving Inhabited

/-- A filesystem node: a file or a directory with named children. -/
inductive FsNode where
  | file (d : FileData)
  | dir (entries : List (String × FsNode))
deriving Inhabited

/-- `readFileSync` followed by `JSON.parse`: reading a directory or an
unreadable file throws an IO error, malformed content a parse error. -/
def readPackageFile : FsNode → Except ScanErr JsonValue
  | .dir _ => .error .ioError
  | .file .unreadable => .error .ioError
  | .file .malformed => .error .parseError
  | .file (.jsonData v) => .ok v

/-- `scanPackageJson(packageJsonPath)` from index.js on the node found at
the path (`none` when `fs.existsSync` is false, which raises the explicit
not-found error). -/
def scanPackageJson (node : Option FsNode) : Except ScanErr PackageScanResult :=
  match node with
  | none => .error .notFound
  | some n =>
    match readPackageFile n with
    | .error e => .error e
    | .ok packageJson => scanParsed packageJson

/-- Whether a node is a directory, as `dirent.isDirectory()` reports. -/
def FsNode.isDir : FsNode → Bool
  | .file _ => false
  | .dir _ => true

/-- The children of a node, as `fs.readdirSync` lists them; a file has
none. -/
def FsNode.childEntries : FsNode → List (String × FsNode)
  | .file _ => []
  | .dir entries => entries

/-- `fs.existsSync(dir + name)` combined with the lookup of the entry. -/
def lookupEntry (entries : List (String × FsNode)) (name : String) : Option FsNode :=
  (entries.find? fun e => e.1 == name).map fun e => e.2

/-- JavaScript `str.startsWith(pre)`, modelled on the character lists. -/
def strStartsWith (s pre : String) : Bool :=
  pre.toList.isPrefixOf s.toList

/-- The record of one `scanPackageJson` invocation during a tree walk: the
path of the metadata file (relative to the walked root) and the outcome. -/
abbrev ScanTrace := List (List String × Except ScanErr PackageScanResult)

/-- The shared try/catch body of `scanNodeModules`: a successful scan is
kept when its overall risk is not SAFE or it has matches; an exception is
swallowed and the package skipped. -/
def tryCollect (res : Except ScanErr PackageScanResult) : List PackageScanResult :=
  match res with
  | .ok r => if r.overallRisk ≠ RiskLevel.SAFE ∨ r.totalMatches > 0 then [r] else []
  | .error _ => []

/-- The scoped-package loop of `scanNodeModules`: for each immediate child
directory of a scope directory, scan `scope/pkgName/package.json` when it
exists.  Results in listing order, each attempted scan recorded in the
trace. -/
def scanScoped (scopeName : String) : List (String × FsNode) → List PackageScanResult × ScanTrace
  | [] => ([], [])
  | (sname, snode) :: rest =>
    let more := scanScoped scopeName rest
    match lookupEntry snode.childEntries "package.json" with
    | some pj =>
      let res := scanPackageJson (some pj)
      (tryCollect res ++ more.1, ([scopeName, sname, "package.json"], res) :: more.2)
    | none => more

/-- The loop body of `scanNodeModules` for one directory entry of the
root: the direct `name/package.json` scan attempt, then, when the name
starts with `@`, one extra level over the child directories. -/
def scanTopEntry (name : String) (node : FsNode) : List PackageScanResult × ScanTrace :=
  let direct : List PackageScanResult × ScanTrace :=
    match lookupEntry node.childEntries "package.json" with
    | some pj =>
      let res := scanPackageJson (some pj)
      (tryCollect res, [([name, "package.json"], res)])
    | none => ([], [])
  let scopedPart : List PackageScanResult × ScanTrace :=
    if strStartsWith name "@" then
      scanScoped name (node.childEntries.filter fun e => e.2.isDir)
    else ([], [])
  (direct.1 ++ scopedPart.1, direct.2 ++ scopedPart.2)

/-- `scanNodeModules(nodeModulesPath)` from index.js on the listing of an
existing root directory, instrumented with the trace of attempted scans:
keep the child directories whose name does not start with a dot, in
listing order, and apply `scanTopEntry` to each. -/
def scanNodeModulesTraced : List (String × FsNode) → List PackageScanResult × ScanTrace
  | [] => ([], [])
  | (name, node) :: rest =>
    if node.isDir && !(strStartsWith name ".") then
      let here := scanTopEntry name node
      let more := scanNodeModulesTraced rest
      (here.1 ++ more.1, here.2 ++ more.2)
    else scanNodeModulesTraced rest

/-- The result list `scanNodeModules` returns. -/
def scanNodeModules (rootEntries : List (String × FsNode)) : List PackageScanResult :=
  (scanNodeModulesTraced rootEntries).1

/-- The tree of the clean-scan scenario of the design document: a
dot-prefixed directory and a package with no lifecycle scripts. -/
def cleanDemoTree : List (String × FsNode) :=
  [(".bin", .dir []),
   ("left-pad", .dir [("package.json", .file (.jsonData (.obj
     [("name", .str "left-pad"), ("version", .str "1.0.0")])))])]

/-- A metadata file whose install script is the number 42: parseable JSON,
but the lifecycle value is a truthy non-string. -/
def truthyNonStringNode : Option FsNode :=
  some (.file (.jsonData (.obj [("scripts", .obj [("install", .num 42)])])))

/-- A small package whose install script triggers exactly one catalog
pattern, used to instantiate the per-package invariants. -/
def demoNode : Option FsNode :=
  some (.file (.jsonData (.obj
    [("name", .str "demo"), ("version", .str "1.0.0"),
     ("scripts", .obj [("install", .str "fetch(")])])))

/-- The result `scanPackageJson` computes on `demoNode`. -/
def demoRes : PackageScanResult :=
  (scanPackageJson demoNode).toOption.getD default


/-- Sentence of the design document: base tier from total match count
(5 or more CRITICAL, 3 or 4 HIGH, 1 or 2 MEDIUM, 0 LOW). -/
def specCountTier (n : Nat) : RiskLevel :=
  if n ≥ 5 then .CRITICAL
  else if n ≥ 3 then .HIGH
  else if n ≥ 1 then .MEDIUM
  else .LOW

/-- Sentence of the design document: the maximum tier of a list of tiers,
by the fixed order CRITICAL > HIGH > MEDIUM > LOW > SAFE, SAFE when the
list is empty. -/
def specMaxTier (tiers : List RiskLevel) : RiskLevel :=
  tiers.foldl (fun acc t => if riskScores t ≤ riskScores acc then acc else t) .SAFE

/-- Sentence of the design document: a result is worth returning from a
tree scan when its overall risk is not SAFE or it has matches. -/
def specReviewWorthy (r : PackageScanResult) : Bool :=
  decide (r.overallRisk ≠ RiskLevel.SAFE ∨ r.totalMatches > 0)

/-- The categories of the catalog patterns that occur in a script,
in catalog order; the statement-side reading of the Pattern Catalog. -/
def matchedCategories (s : String) : List PatCategory :=
  suspiciousPatterns.filterMap fun pat => if pat.2.2.test s then some pat.1 else none

/-- Sentence of the design document: the metadata files a tree walk is
expected to visit, one per non-dot package directory and one per package
inside each scope directory. -/
def specExpectedScans (entries : List (String × FsNode)) : List (List String) :=
  entries.flatMap fun e =>
    if strStartsWith e.1 "." then []
    else if strStartsWith e.1 "@" then
      e.2.childEntries.map fun se => [e.1, se.1, "package.json"]
    else [[e.1, "package.json"]]

/-- One lifecycle key is acceptable to the analyzer: absent, falsy, or a
string. -/
def specKeyOK (scriptsVal : JsonValue) (key : String) : Prop :=
  match getField scriptsVal key with
  | some v => truthy v = true → isStr v = true
  | none => True

/-- A parsed metadata document whose lifecycle values the analyzer accepts:
either no truthy `scripts` field, or every one of the six lifecycle keys is
absent, falsy or bound to a string. -/
def specLifecycleValuesOK (packageJson : JsonValue) : Prop :=
  match getField packageJson "scripts" with
  | some sv => truthy sv = true → ∀ k ∈ dangerousScripts, specKeyOK sv k
  | none => True

/-- Hypothesis of the tree-shape claim: an unscoped package directory with
a metadata file. -/
def specUnscopedPkgEntry (name : String) (node : FsNode) : Prop :=
  strStartsWith name "." = false ∧ strStartsWith name "@" = false ∧
  node.isDir = true ∧
  ∃ v, lookupEntry node.childEntries "package.json" = some (.file (.jsonData v))

/-- Hypothesis of the tree-shape claim: a scope directory containing
exactly one scoped package directory with a metadata file and no direct
metadata file of its own. -/
def specScopeEntry (name : String) (node : FsNode) : Prop :=
  strStartsWith name "." = false ∧ strStartsWith name "@" = true ∧
  node.isDir = true ∧
  lookupEntry node.childEntries "package.json" = none ∧
  ∃ sname snode, node.childEntries = [(sname, snode)] ∧ snode.isDir = true ∧
    ∃ v, lookupEntry snode.childEntries "package.json" = some (.file (.jsonData v))

theorem analyzeScript_riskLevel_eq (n c : String) :
    (analyzeScript n c).riskLevel =
      if (hasNetworkRx.test c && hasEnvRx.test c) || (hasExecRx.test c && hasObfuscationRx.test c)
      then RiskLevel.CRITICAL
      else specCountTier (analyzeScript n c).foundMatches.length := rfl

theorem analyzeScript_score_eq (n c : String) :
    (analyzeScript n c).score = riskScores (analyzeScript n c).riskLevel := rfl

theorem analyzeScript_risks_eq (n c : String) :
    (analyzeScript n c).risks =
      (if (hasNetworkRx.test c && hasEnvRx.test c) || (hasExecRx.test c && hasObfuscationRx.test c)
       then [combinationNote] else []) ++
      (if hasObfuscationRx.test c then [obfuscationNote] else []) := rfl

theorem specCountTier_ne_safe (n : Nat) : specCountTier n ≠ .SAFE := by
  unfold specCountTier
  repeat' split
  all_goals decide

theorem analyzeScript_ne_safe (n c : String) : (analyzeScript n c).riskLevel ≠ .SAFE := by
  rw [analyzeScript_riskLevel_eq]
  split
  · decide
  · exact specCountTier_ne_safe _

theorem riskScores_le_100 (L : RiskLevel) : riskScores L ≤ 100 := by
  cases L <;> decide

/-- Claim C1, amended: the category-combination override of `analyzeScript`
tests the four regexes `fetch|axios|https?://`, `process\.env`,
`exec|spawn|child_process` and `eval|Function(|base64` (not every catalog
token of the network, credential/env, exec and obfuscation categories);
when one of the two conjunctions holds, the analysis is CRITICAL with
score 100 and the combination note appended, and the final tier is never
below the count-derived tier. -/
theorem c1_override_forces_critical (n c : String) :
    (((hasNetworkRx.test c && hasEnvRx.test c) ||
      (hasExecRx.test c && hasObfuscationRx.test c)) = true →
      (analyzeScript n c).riskLevel = RiskLevel.CRITICAL ∧
      (analyzeScript n c).score = 100 ∧
      combinationNote ∈ (analyzeScript n c).risks) ∧
    riskScores (specCountTier (analyzeScript n c).foundMatches.length) ≤
      riskScores (analyzeScript n c).riskLevel := by
  constructor
  · intro h
    refine ⟨?_, ?_, ?_⟩
    · rw [analyzeScript_riskLevel_eq, if_pos h]
    · rw [analyzeScript_score_eq, analyzeScript_riskLevel_eq, if_pos h]
      rfl
    · rw [analyzeScript_risks_eq, if_pos h]
      exact List.mem_append_left _ (List.mem_singleton_self _)
  · rw [analyzeScript_riskLevel_eq]
    split
    · exact riskScores_le_100 _
    · exact le_refl _

/-- Witness for the amended claim C1 at a concrete script combining a
network token with an environment read. -/
theorem c1_override_forces_critical_witness :
    ((hasNetworkRx.test "fetch( process.env" && hasEnvRx.test "fetch( process.env") ||
     (hasExecRx.test "fetch( process.env" && hasObfuscationRx.test "fetch( process.env")) = true ∧
    ((analyzeScript "install" "fetch( process.env").riskLevel = RiskLevel.CRITICAL ∧
     (analyzeScript "install" "fetch( process.env").score = 100 ∧
     combinationNote ∈ (analyzeScript "install" "fetch( process.env").risks) :=
  ⟨by decide, (c1_override_forces_critical "install" "fetch( process.env").1 (by decide)⟩

/-- Claim C1, counterexample to the claim as stated: the script
"webhook.site .ssh" contains the network-category catalog token
webhook.site and the credential/env-category catalog token .ssh, yet its
tier is the count-derived MEDIUM, not CRITICAL, because the override
regexes do not cover these two tokens. -/
theorem c1_counterexample :
    PatCategory.network ∈ matchedCategories "webhook.site .ssh" ∧
    PatCategory.credentialEnv ∈ matchedCategories "webhook.site .ssh" ∧
    (analyzeScript "install" "webhook.site .ssh").riskLevel = RiskLevel.MEDIUM := by
  refine ⟨by decide, by decide, by decide⟩

/-- Claim C3, evaluation at the failing input: on the script "fetch(x)"
exactly one match is recorded and its matched text is the leftmost
occurrence, but its context is the empty string, because `found.index` of
a global-regex match result is undefined and `substring(NaN, NaN)` yields
the empty string.  The second conjunct computes the radius-50 window the
specification describes for this occurrence, which is not empty. -/
theorem c3_context_is_empty :
    (analyzeScript "install" "fetch(x)").foundMatches =
      [{ pattern := "fetch\\s*\\(", matched := "fetch(", context := "" }] ∧
    getContext "fetch(x)" (some 0) 50 = "fetch(x)" ∧
    ("" : String) ≠ "fetch(x)" := by
  refine ⟨by decide, by decide, by decide⟩

/-- Claim C4: without the combination override the tier is derived from
the number of matching catalog patterns alone (5 or more CRITICAL, 3 or 4
HIGH, 1 or 2 MEDIUM, 0 LOW), the tier of an analysed script is never SAFE,
and the script "echo hello" has no matches, tier LOW and no notes. -/
theorem c4_count_tier (n c : String) :
    (((hasNetworkRx.test c && hasEnvRx.test c) ||
      (hasExecRx.test c && hasObfuscationRx.test c)) = false →
      (analyzeScript n c).riskLevel = specCountTier (analyzeScript n c).foundMatches.length) ∧
    (analyzeScript n c).riskLevel ≠ RiskLevel.SAFE ∧
    (analyzeScript "install" "echo hello").foundMatches = [] ∧
    (analyzeScript "install" "echo hello").riskLevel = RiskLevel.LOW ∧
    (analyzeScript "install" "echo hello").risks = [] := by
  refine ⟨?_, analyzeScript_ne_safe n c, by decide, by decide, by decide⟩
  intro h
  rw [analyzeScript_riskLevel_eq, h]
  simp

/-- Witness for claim C4 at the concrete script of its scenario. -/
theorem c4_count_tier_witness :
    ((hasNetworkRx.test "echo hello" && hasEnvRx.test "echo hello") ||
     (hasExecRx.test "echo hello" && hasObfuscationRx.test "echo hello")) = false ∧
    (analyzeScript "install" "echo hello").riskLevel =
      specCountTier (analyzeScript "install" "echo hello").foundMatches.length :=
  ⟨by decide, (c4_count_tier "install" "echo hello").1 (by decide)⟩

theorem riskScores_fold_step (a b : RiskLevel) :
    Nat.max (riskScores a) (riskScores b) =
      riskScores (if riskScores b ≤ riskScores a then a else b) := by
  split
  · exact Nat.max_eq_left (by assumption)
  · exact Nat.max_eq_right (Nat.le_of_not_le (by assumption))

theorem riskScores_foldl_max (ls : List RiskLevel) : ∀ acc : RiskLevel,
    (ls.map riskScores).foldl Nat.max (riskScores acc) =
      riskScores (ls.foldl (fun acc t => if riskScores t ≤ riskScores acc then acc else t) acc) := by
  induction ls with
  | nil => intro acc; rfl
  | cons head tail ih =>
    intro acc
    simp only [List.map_cons, List.foldl_cons]
    rw [riskScores_fold_step, ih]

theorem decode_riskScores (L : RiskLevel) :
    (if riskScores L ≥ riskScores RiskLevel.CRITICAL then RiskLevel.CRITICAL
     else if riskScores L ≥ riskScores RiskLevel.HIGH then RiskLevel.HIGH
     else if riskScores L ≥ riskScores RiskLevel.MEDIUM then RiskLevel.MEDIUM
     else if riskScores L ≥ riskScores RiskLevel.LOW then RiskLevel.LOW
     else RiskLevel.SAFE) = L := by
  cases L <;> rfl

theorem calculateOverallRisk_eq_specMaxTier (l : List ScriptAnalysis)
    (hs : ∀ a ∈ l, a.score = riskScores a.riskLevel) :
    calculateOverallRisk l = specMaxTier (l.map fun a => a.riskLevel) := by
  cases l with
  | nil => rfl
  | cons a t =>
    have hmap : ((a :: t).map fun s => s.score) =
        (((a :: t).map fun s => s.riskLevel).map riskScores) := by
      rw [List.map_map]
      exact List.map_congr_left hs
    unfold calculateOverallRisk specMaxTier
    rw [show (a :: t).isEmpty = false from rfl,
        if_neg (by decide : ¬ (false = true)), hmap,
        show (0 : Nat) = riskScores RiskLevel.SAFE from rfl, riskScores_foldl_max]
    exact decode_riskScores _

theorem riskScores_specMaxTier (ls : List RiskLevel) :
    riskScores (specMaxTier ls) = (ls.map riskScores).foldl Nat.max 0 := by
  unfold specMaxTier
  rw [show (0 : Nat) = riskScores RiskLevel.SAFE from rfl, riskScores_foldl_max]

theorem le_foldl_max_acc (ls : List Nat) : ∀ acc, acc ≤ ls.foldl Nat.max acc := by
  induction ls with
  | nil => intro acc; exact le_refl _
  | cons h t ih => intro acc; exact le_trans (Nat.le_max_left acc h) (ih _)

theorem foldl_max_le_mem (ls : List Nat) : ∀ (acc x : Nat), x ∈ ls → x ≤ ls.foldl Nat.max acc := by
  induction ls with
  | nil => intro acc x hx; cases hx
  | cons h t ih =>
    intro acc x hx
    cases hx with
    | head => exact le_trans (Nat.le_max_right acc h) (le_foldl_max_acc t _)
    | tail _ hx => exact ih _ x hx

theorem specMaxTier_ne_safe (a : RiskLevel) (t : List RiskLevel)
    (h : ∀ lv ∈ a :: t, lv ≠ RiskLevel.SAFE) : specMaxTier (a :: t) ≠ RiskLevel.SAFE := by
  intro hsafe
  have h1 : riskScores (specMaxTier (a :: t)) = 0 := by rw [hsafe]; rfl
  have h2 : riskScores a ≤ riskScores (specMaxTier (a :: t)) := by
    rw [riskScores_specMaxTier]
    exact foldl_max_le_mem _ _ _ (List.mem_map_of_mem riskScores (List.mem_cons_self a t))
  have h3 : 25 ≤ riskScores a := by
    cases a
    · decide
    · decide
    · decide
    · decide
    · exact absurd rfl (h _ (List.mem_cons_self _ _))
  omega

theorem analyzeKeys_mem (sv : JsonValue) (ks : List String) :
    ∀ l, analyzeKeys sv ks = .ok l → ∀ e ∈ l, ∃ k s, e = (k, analyzeScript k s) := by
  induction ks with
  | nil =>
    intro l h e he
    simp only [analyzeKeys, Except.ok.injEq] at h
    subst h
    cases he
  | cons k ks ih =>
    intro l h e he
    simp only [analyzeKeys] at h
    split at h
    · split at h
      · split at h
        · split at h
          · simp only [Except.ok.injEq] at h
            subst h
            cases he with
            | head => exact ⟨k, _, rfl⟩
            | tail _ hm => exact ih _ (by assumption) e hm
          · simp at h
        · simp at h
      · exact ih _ h e he
    · exact ih _ h e he

theorem analyzeKeys_error_typeError (sv : JsonValue) (ks : List String) :
    ∀ e, analyzeKeys sv ks = .error e → e = ScanErr.typeError := by
  induction ks with
  | nil => intro e h; simp [analyzeKeys] at h
  | cons k ks ih =>
    intro e h
    simp only [analyzeKeys] at h
    split at h
    · split at h
      · split at h
        · split at h
          · simp at h
          · simp only [Except.error.injEq] at h
            subst h
            exact ih _ (by assumption)
        · simp only [Except.error.injEq] at h
          subst h
          rfl
      · exact ih _ h
    · exact ih _ h

theorem scriptsResult_mem (pj : JsonValue) (scripts : List (String × ScriptAnalysis))
    (h : scriptsResult pj = .ok scripts) :
    ∀ e ∈ scripts, ∃ k s, e = (k, analyzeScript k s) := by
  unfold scriptsResult at h
  split at h
  · split at h
    · exact analyzeKeys_mem _ _ _ h
    · simp only [Except.ok.injEq] at h
      subst h
      intro e he
      cases he
  · simp only [Except.ok.injEq] at h
    subst h
    intro e he
    cases he

theorem scanPackageJson_ok_inv (node : Option FsNode) (r : PackageScanResult)
    (h : scanPackageJson node = .ok r) :
    ∃ pj scripts, scriptsResult pj = .ok scripts ∧ r = buildResult pj scripts := by
  unfold scanPackageJson at h
  split at h
  · simp at h
  · split at h
    · simp at h
    · unfold scanParsed at h
      split at h
      · simp at h
      · split at h
        · simp at h
        · simp only [Except.ok.injEq] at h
          exact ⟨_, _, by assumption, h.symm⟩

/-- Claim C2: the overall risk of a scan result equals the maximum tier,
in the order CRITICAL > HIGH > MEDIUM > LOW > SAFE, among the recorded
lifecycle analyses, and it is SAFE exactly when no lifecycle script was
recorded. -/
theorem c2_overall_risk (node : Option FsNode) (r : PackageScanResult)
    (h : scanPackageJson node = .ok r) :
    r.overallRisk = specMaxTier (r.scripts.map fun e => e.2.riskLevel) ∧
    (r.overallRisk = RiskLevel.SAFE ↔ r.scripts = []) := by
  obtain ⟨pj, scripts, hs, rfl⟩ := scanPackageJson_ok_inv node r h
  have hform := scriptsResult_mem pj scripts hs
  have hscore : ∀ a ∈ scripts.map (fun e => e.2), a.score = riskScores a.riskLevel := by
    intro a ha
    obtain ⟨e, he, rfl⟩ := List.mem_map.mp ha
    obtain ⟨k, s, rfl⟩ := hform e he
    exact analyzeScript_score_eq k s
  have hscripts : (buildResult pj scripts).scripts = scripts := rfl
  have hmain : (buildResult pj scripts).overallRisk =
      specMaxTier ((buildResult pj scripts).scripts.map fun e => e.2.riskLevel) := by
    rw [hscripts]
    have := calculateOverallRisk_eq_specMaxTier (scripts.map fun e => e.2) hscore
    rw [show (buildResult pj scripts).overallRisk
        = calculateOverallRisk (scripts.map fun e => e.2) from rfl, this, List.map_map]
    rfl
  refine ⟨hmain, ?_, ?_⟩
  · intro hsafe
    rw [hscripts]
    cases hcase : scripts with
    | nil => rfl
    | cons a t =>
      exfalso
      have hne : ∀ lv ∈ (a :: t).map fun e => e.2.riskLevel, lv ≠ RiskLevel.SAFE := by
        intro lv hlv
        obtain ⟨e, he, rfl⟩ := List.mem_map.mp hlv
        obtain ⟨k, s, rfl⟩ := hform e (hcase ▸ he)
        exact analyzeScript_ne_safe k s
      have : specMaxTier ((a :: t).map fun e => e.2.riskLevel) ≠ RiskLevel.SAFE := by
        rw [List.map_cons] at hne ⊢
        exact specMaxTier_ne_safe _ _ hne
      rw [hmain, hscripts, hcase] at hsafe
      exact this hsafe
  · intro hempty
    rw [hscripts] at hempty
    subst hempty
    rfl

/-- Witness for claim C2 at a concrete package whose install script has
one match. -/
theorem c2_overall_risk_witness :
    demoRes.overallRisk = specMaxTier (demoRes.scripts.map fun e => e.2.riskLevel) ∧
    (demoRes.overallRisk = RiskLevel.SAFE ↔ demoRes.scripts = []) :=
  c2_overall_risk demoNode demoRes (by rfl)

/-- Claim C5: the total match count of a scan result is the sum of the
match-list lengths over its recorded lifecycle analyses. -/
theorem c5_total_matches (node : Option FsNode) (r : PackageScanResult)
    (h : scanPackageJson node = .ok r) :
    r.totalMatches = (r.scripts.map fun e => e.2.foundMatches.length).sum := by
  obtain ⟨pj, scripts, hs, rfl⟩ := scanPackageJson_ok_inv node r h
  rfl

/-- Witness for claim C5 at a concrete package whose install script has
one match. -/
theorem c5_total_matches_witness :
    demoRes.totalMatches = (demoRes.scripts.map fun e => e.2.foundMatches.length).sum :=
  c5_total_matches demoNode demoRes (by rfl)

theorem tryCollect_eq (res : Except ScanErr PackageScanResult) :
    tryCollect res = res.toOption.toList.filter specReviewWorthy := by
  cases res with
  | error e => rfl
  | ok r =>
    show (if r.overallRisk ≠ RiskLevel.SAFE ∨ r.totalMatches > 0 then [r] else [])
      = [r].filter specReviewWorthy
    by_cases hp : r.overallRisk ≠ RiskLevel.SAFE ∨ r.totalMatches > 0
    · rw [if_pos hp]
      have hb : specReviewWorthy r = true := decide_eq_true hp
      simp [List.filter_cons, hb]
    · rw [if_neg hp]
      have hb : specReviewWorthy r = false := decide_eq_false hp
      simp [List.filter_cons, hb]

theorem filterMap_toOption_cons (p : List String × Except ScanErr PackageScanResult)
    (l : ScanTrace) :
    ((p :: l).filterMap fun t => t.2.toOption) =
      p.2.toOption.toList ++ (l.filterMap fun t => t.2.toOption) := by
  cases hp : p.2 with
  | ok r => simp [List.filterMap_cons, hp, Except.toOption]
  | error e => simp [List.filterMap_cons, hp, Except.toOption]

theorem scanScoped_filter (scope : String) (es : List (String × FsNode)) :
    (scanScoped scope es).1 =
      ((scanScoped scope es).2.filterMap fun t => t.2.toOption).filter specReviewWorthy := by
  induction es with
  | nil => rfl
  | cons e rest ih =>
    obtain ⟨sname, snode⟩ := e
    simp only [scanScoped]
    split
    · rw [filterMap_toOption_cons, List.filter_append, ← tryCollect_eq, ← ih]
    · exact ih

theorem scanTopEntry_filter (name : String) (node : FsNode) :
    (scanTopEntry name node).1 =
      ((scanTopEntry name node).2.filterMap fun t => t.2.toOption).filter specReviewWorthy := by
  cases hlk : lookupEntry node.childEntries "package.json" with
  | some pj =>
    cases hat : strStartsWith name "@" with
    | true =>
      simp only [scanTopEntry, hlk, hat, if_pos]
      rw [List.filterMap_append, List.filter_append, filterMap_toOption_cons]
      simp only [List.filterMap_nil, List.append_nil, List.filter_append, ← tryCollect_eq,
        ← scanScoped_filter]
    | false =>
      simp only [scanTopEntry, hlk, hat, Bool.false_eq_true, if_false]
      rw [List.append_nil, List.append_nil, filterMap_toOption_cons]
      simp only [List.filterMap_nil, List.append_nil, ← tryCollect_eq]
  | none =>
    cases hat : strStartsWith name "@" with
    | true =>
      simp only [scanTopEntry, hlk, hat, if_pos]
      simp only [List.nil_append, ← scanScoped_filter]
    | false =>
      simp only [scanTopEntry, hlk, hat, Bool.false_eq_true, if_false]
      simp

theorem scanNodeModulesTraced_filter (es : List (String × FsNode)) :
    (scanNodeModulesTraced es).1 =
      ((scanNodeModulesTraced es).2.filterMap fun t => t.2.toOption).filter specReviewWorthy := by
  induction es with
  | nil => rfl
  | cons e rest ih =>
    obtain ⟨name, node⟩ := e
    simp only [scanNodeModulesTraced]
    split
    · rw [List.filterMap_append, List.filter_append, ← scanTopEntry_filter, ← ih]
    · exact ih

/-- Claim C6: a tree scan returns exactly the successfully scanned results
whose overall risk is not SAFE or whose total match count is positive, in
scan order; and the tree holding only a dot-prefixed directory and a
package without lifecycle scripts yields the empty list. -/
theorem c6_filtering (rootEntries : List (String × FsNode)) :
    scanNodeModules rootEntries =
      ((scanNodeModulesTraced rootEntries).2.filterMap fun t => t.2.toOption).filter
        specReviewWorthy ∧
    scanNodeModules cleanDemoTree = [] :=
  ⟨scanNodeModulesTraced_filter rootEntries, List.length_eq_zero.mp (by decide)⟩

theorem walkEntries_append (a b : List (String × FsNode)) :
    (scanNodeModulesTraced (a ++ b)).1 =
      (scanNodeModulesTraced a).1 ++ (scanNodeModulesTraced b).1 := by
  induction a with
  | nil => rfl
  | cons p rest ih =>
    obtain ⟨name, node⟩ := p
    simp only [List.cons_append, scanNodeModulesTraced]
    split
    · simp only [List.append_eq, ih, List.append_assoc]
    · exact ih

theorem find?_append_middle_false {α : Type} (p : α → Bool) (x : α) (hx : p x = false)
    (l1 l2 : List α) : List.find? p (l1 ++ x :: l2) = List.find? p (l1 ++ l2) := by
  induction l1 with
  | nil => simp [List.find?, hx]
  | cons a l1 ih =>
    simp only [List.cons_append, List.find?]
    cases hpa : p a <;> simp [hpa, ih]

theorem scanScoped_skip (scope sname : String) (snode pj : FsNode) (e : ScanErr)
    (hpj : lookupEntry snode.childEntries "package.json" = some pj)
    (herr : scanPackageJson (some pj) = .error e)
    (l1 l2 : List (String × FsNode)) :
    (scanScoped scope (l1 ++ (sname, snode) :: l2)).1 = (scanScoped scope (l1 ++ l2)).1 := by
  induction l1 with
  | nil =>
    simp [scanScoped, hpj, herr, tryCollect]
  | cons q l1 ih =>
    obtain ⟨qn, qnode⟩ := q
    simp only [List.cons_append, scanScoped]
    split
    · simp only [List.append_eq, ih]
    · exact ih

theorem scanTopEntry_scoped_skip (name sname : String) (snode pj : FsNode) (e : ScanErr)
    (spre spost : List (String × FsNode))
    (hat : strStartsWith name "@" = true)
    (hsname : sname ≠ "package.json")
    (hsdir : snode.isDir = true)
    (hpj : lookupEntry snode.childEntries "package.json" = some pj)
    (herr : scanPackageJson (some pj) = .error e) :
    (scanTopEntry name (.dir (spre ++ (sname, snode) :: spost))).1 =
      (scanTopEntry name (.dir (spre ++ spost))).1 := by
  have hlk : lookupEntry (spre ++ (sname, snode) :: spost) "package.json" =
      lookupEntry (spre ++ spost) "package.json" := by
    unfold lookupEntry
    rw [find?_append_middle_false (fun q => q.1 == "package.json") (sname, snode)
      (beq_eq_false_iff_ne.mpr hsname) spre spost]
  have hfil : (spre ++ (sname, snode) :: spost).filter (fun q => q.2.isDir) =
      spre.filter (fun q => q.2.isDir) ++
        (sname, snode) :: spost.filter (fun q => q.2.isDir) := by
    simp [List.filter_append, List.filter_cons, hsdir]
  have hfil2 : (spre ++ spost).filter (fun q => q.2.isDir) =
      spre.filter (fun q => q.2.isDir) ++ spost.filter (fun q => q.2.isDir) := by
    simp [List.filter_append]
  unfold scanTopEntry
  simp only [FsNode.childEntries, hlk, hat, if_true, hfil, hfil2]
  exact congrArg _ (scanScoped_skip name sname snode pj e hpj herr _ _)

/-- Claim C7: any per-package failure during a tree walk is caught and the
failing package silently omitted while the walk continues, at each of the
three scan sites: an unscoped top-level package whose scan raises can be
removed without changing the result list; a scoped package whose scan
raises can likewise be removed from its scope directory; and a scope
directory whose own direct package.json scan raises still contributes the
results of its scoped packages, the failing direct scan contributing
nothing.  The walk is a total function, so it never raises. -/
theorem c7_failure_skipped :
    (∀ (pre post : List (String × FsNode)) (name : String) (node pj : FsNode) (e : ScanErr),
      strStartsWith name "." = false → strStartsWith name "@" = false →
      node.isDir = true →
      lookupEntry node.childEntries "package.json" = some pj →
      scanPackageJson (some pj) = .error e →
      scanNodeModules (pre ++ (name, node) :: post) = scanNodeModules (pre ++ post)) ∧
    (∀ (pre post spre spost : List (String × FsNode)) (name sname : String)
        (snode pj : FsNode) (e : ScanErr),
      strStartsWith name "." = false → strStartsWith name "@" = true →
      sname ≠ "package.json" → snode.isDir = true →
      lookupEntry snode.childEntries "package.json" = some pj →
      scanPackageJson (some pj) = .error e →
      scanNodeModules (pre ++ (name, .dir (spre ++ (sname, snode) :: spost)) :: post) =
        scanNodeModules (pre ++ (name, .dir (spre ++ spost)) :: post)) ∧
    (∀ (pre post : List (String × FsNode)) (name : String) (node pj : FsNode) (e : ScanErr),
      strStartsWith name "." = false → strStartsWith name "@" = true →
      node.isDir = true →
      lookupEntry node.childEntries "package.json" = some pj →
      scanPackageJson (some pj) = .error e →
      scanNodeModules (pre ++ (name, node) :: post) =
        scanNodeModules pre ++
          (scanScoped name (node.childEntries.filter fun q => q.2.isDir)).1 ++
          scanNodeModules post) := by
  refine ⟨?_, ?_, ?_⟩
  · intro pre post name node pj e hdot hat hdir hpj herr
    unfold scanNodeModules
    rw [walkEntries_append, walkEntries_append]
    refine congrArg _ ?_
    simp only [scanNodeModulesTraced, hdir, hdot, Bool.not_false, Bool.and_self, if_true]
    simp [scanTopEntry, hpj, herr, hat, tryCollect]
  · intro pre post spre spost name sname snode pj e hdot hat hsname hsdir hpj herr
    unfold scanNodeModules
    rw [walkEntries_append, walkEntries_append]
    refine congrArg _ ?_
    simp only [scanNodeModulesTraced, FsNode.isDir, hdot, Bool.not_false, Bool.true_and,
      if_true]
    exact congrArg (fun l => l ++ (scanNodeModulesTraced post).1)
      (scanTopEntry_scoped_skip name sname snode pj e spre spost hat hsname hsdir hpj herr)
  · intro pre post name node pj e hdot hat hdir hpj herr
    unfold scanNodeModules
    rw [walkEntries_append, List.append_assoc]
    refine congrArg _ ?_
    simp only [scanNodeModulesTraced, hdir, hdot, Bool.not_false, Bool.and_self, if_true]
    simp [scanTopEntry, hpj, herr, hat, tryCollect]

/-- A package directory whose metadata file is malformed, so its scan
raises a parse error. -/
def badPkgNode : FsNode :=
  .dir [("package.json", .file .malformed)]

/-- A package directory whose install script has one suspicious match, so
its scan result is kept by a tree scan. -/
def evilPkgEntry : String × FsNode :=
  ("evil", .dir [("package.json", .file (.jsonData (.obj
    [("name", .str "evil"), ("scripts", .obj [("install", .str "fetch(")])])))])

/-- A scoped package directory whose install script has one suspicious
match. -/
def goodScopedPkg : FsNode :=
  .dir [("package.json", .file (.jsonData (.obj
    [("name", .str "good"), ("scripts", .obj [("install", .str "fetch(")])])))]

/-- A scope directory containing a malformed scoped package next to a good
one. -/
def scopeWithBadPkg : FsNode :=
  .dir [("badpkg", badPkgNode), ("good", goodScopedPkg)]

/-- The same scope directory with the malformed scoped package removed. -/
def scopeWithoutBadPkg : FsNode :=
  .dir [("good", goodScopedPkg)]

/-- A scope directory whose own package.json is malformed but which still
contains a scoped package. -/
def brokenScopeDir : FsNode :=
  .dir [("package.json", .file .malformed),
        ("pkg", .dir [("package.json", .file (.jsonData (.obj [("name", .str "pkg")])))])]

/-- Witness for claim C7 at all three scan sites: a malformed unscoped
package, a malformed scoped package, and a scope directory whose own
metadata file is malformed. -/
theorem c7_failure_skipped_witness :
    (scanNodeModules ([] ++ ("badpkg", badPkgNode) :: [evilPkgEntry]) =
      scanNodeModules ([] ++ [evilPkgEntry])) ∧
    (scanNodeModules ([] ++ ("@scope", scopeWithBadPkg) :: []) =
      scanNodeModules ([] ++ ("@scope", scopeWithoutBadPkg) :: [])) ∧
    (scanNodeModules ([] ++ ("@broken", brokenScopeDir) :: []) =
      scanNodeModules [] ++
        (scanScoped "@broken" (brokenScopeDir.childEntries.filter fun q => q.2.isDir)).1 ++
        scanNodeModules []) :=
  ⟨c7_failure_skipped.1 [] [evilPkgEntry] "badpkg" badPkgNode (.file .malformed)
      .parseError (by decide) (by decide) rfl rfl rfl,
   c7_failure_skipped.2.1 [] [] [] [("good", goodScopedPkg)] "@scope" "badpkg"
      badPkgNode (.file .malformed) .parseError (by decide) (by decide) (by decide) rfl rfl rfl,
   c7_failure_skipped.2.2 [] [] "@broken" brokenScopeDir (.file .malformed)
      .parseError (by decide) (by decide) rfl rfl rfl⟩

/-- Claim C8: over a root whose entries are unscoped package directories
with metadata, scope directories holding exactly one scoped package, and
dot-prefixed entries, the walk scans exactly one metadata file per package
directory and one per scope directory: the visited paths are exactly
name/package.json for the former and scope/pkg/package.json for the
latter, dot entries are skipped, and no deeper path (in particular no
nested node_modules) is ever visited. -/
theorem c8_tree_shape (entries : List (String × FsNode))
    (h : ∀ p ∈ entries, specUnscopedPkgEntry p.1 p.2 ∨ specScopeEntry p.1 p.2 ∨
      strStartsWith p.1 "." = true) :
    (scanNodeModulesTraced entries).2.map (fun t => t.1) = specExpectedScans entries ∧
    (scanNodeModulesTraced entries).2.length =
      (entries.filter fun p => !(strStartsWith p.1 ".")).length := by
  induction entries with
  | nil => exact ⟨rfl, rfl⟩
  | cons p rest ih =>
    obtain ⟨name, node⟩ := p
    obtain ⟨ih1, ih2⟩ := ih fun q hq => h q (List.mem_cons_of_mem _ hq)
    have hhead := h (name, node) (List.mem_cons_self _ _)
    simp only [specExpectedScans] at ih1 ⊢
    rcases hhead with ⟨hdot, hat, hdir, v, hpj⟩ |
      ⟨hdot, hat, hdir, hnopj, sname, snode, hentries, hsdir, v, hspj⟩ | hdot
    · have htop : (scanTopEntry name node).2 =
          [([name, "package.json"], scanPackageJson (some (.file (.jsonData v))))] := by
        simp [scanTopEntry, hpj, hat]
      constructor
      · simp only [scanNodeModulesTraced, hdir, hdot, Bool.not_false, Bool.and_self, if_true,
          htop, List.map_append, List.flatMap_cons, hat, Bool.false_eq_true, if_false, ih1]
        rfl
      · simp only [scanNodeModulesTraced, hdir, hdot, Bool.not_false, Bool.and_self, if_true,
          htop, List.length_append, List.filter_cons, ih2]
        simp
        omega
    · have hnopj2 : lookupEntry [(sname, snode)] "package.json" = none := hentries ▸ hnopj
      have htop : (scanTopEntry name node).2 =
          [([name, sname, "package.json"], scanPackageJson (some (.file (.jsonData v))))] := by
        simp [scanTopEntry, hnopj2, hat, hentries, hsdir, scanScoped, hspj]
      constructor
      · simp only [scanNodeModulesTraced, hdir, hdot, Bool.not_false, Bool.and_self, if_true,
          htop, List.map_append, List.flatMap_cons, hat, if_true, hentries, List.map_cons,
          Bool.false_eq_true, if_false, ih1]
        rfl
      · simp only [scanNodeModulesTraced, hdir, hdot, Bool.not_false, Bool.and_self, if_true,
          htop, List.length_append, List.filter_cons, ih2]
        simp
        omega
    · constructor
      · simp only [scanNodeModulesTraced, hdot, Bool.not_true, Bool.and_false, Bool.false_eq_true,
          if_false, List.flatMap_cons, if_true, List.nil_append, ih1]
      · simp only [scanNodeModulesTraced, hdot, Bool.not_true, Bool.and_false, Bool.false_eq_true,
          if_false, List.filter_cons, Bool.not_true, ih2]

/-- A root with one unscoped package, one scope directory holding one
scoped package, and one dot-prefixed directory. -/
def c8DemoTree : List (String × FsNode) :=
  [("lodash", .dir [("package.json", .file (.jsonData (.obj [("name", .str "lodash")])))]),
   ("@scope", .dir [("pkg", .dir [("package.json",
      .file (.jsonData (.obj [("name", .str "pkg")])))])]),
   (".cache", .dir [])]

/-- Witness for claim C8 on a concrete three-entry root. -/
theorem c8_tree_shape_witness :
    (scanNodeModulesTraced c8DemoTree).2.map (fun t => t.1) = specExpectedScans c8DemoTree ∧
    (scanNodeModulesTraced c8DemoTree).2.length =
      (c8DemoTree.filter fun p => !(strStartsWith p.1 ".")).length :=
  c8_tree_shape c8DemoTree (by
    intro p hp
    simp only [c8DemoTree, List.mem_cons, List.not_mem_nil, or_false] at hp
    rcases hp with rfl | rfl | rfl
    · exact Or.inl ⟨by decide, by decide, rfl, ⟨_, rfl⟩⟩
    · exact Or.inr (Or.inl ⟨by decide, by decide, rfl, rfl, "pkg", _, rfl, rfl, ⟨_, rfl⟩⟩)
    · exact Or.inr (Or.inr (by decide)))

theorem scriptsResult_error (pj : JsonValue) (e : ScanErr)
    (h : scriptsResult pj = .error e) : e = ScanErr.typeError := by
  unfold scriptsResult at h
  split at h
  · split at h
    · exact analyzeKeys_error_typeError _ _ _ h
    · simp at h
  · simp at h

theorem scanParsed_error (v : JsonValue) (e : ScanErr)
    (h : scanParsed v = .error e) : e = ScanErr.typeError := by
  unfold scanParsed at h
  split at h
  · simp only [Except.error.injEq] at h
    exact h.symm
  · split at h
    · simp only [Except.error.injEq] at h
      subst h
      exact scriptsResult_error _ _ (by assumption)
    · simp at h

theorem analyzeKeys_ok_iff (sv : JsonValue) (ks : List String) :
    (∃ l, analyzeKeys sv ks = .ok l) ↔ ∀ k ∈ ks, specKeyOK sv k := by
  induction ks with
  | nil =>
    constructor
    · intro _ k hk
      exact absurd hk (List.not_mem_nil k)
    · intro _
      exact ⟨[], rfl⟩
  | cons k ks ih =>
    rw [List.forall_mem_cons]
    cases hg : getField sv k with
    | none =>
      simp only [analyzeKeys, hg, specKeyOK, true_and]
      exact ih
    | some v =>
      cases ht : truthy v with
      | false =>
        simp only [analyzeKeys, hg, ht, Bool.false_eq_true, if_false, specKeyOK, false_implies,
          true_and]
        exact ih
      | true =>
        cases v with
        | null => simp [truthy] at ht
        | bool b => simp [analyzeKeys, hg, ht, specKeyOK, isStr]
        | num n => simp [analyzeKeys, hg, ht, specKeyOK, isStr]
        | arr a => simp [analyzeKeys, hg, ht, specKeyOK, isStr]
        | obj o => simp [analyzeKeys, hg, ht, specKeyOK, isStr]
        | str s =>
          simp only [analyzeKeys, hg, ht, if_true, specKeyOK, isStr, implies_true, true_and]
          constructor
          · intro hex
            obtain ⟨l, hl⟩ := hex
            apply ih.mp
            cases hks : analyzeKeys sv ks with
            | ok rest => exact ⟨rest, rfl⟩
            | error e => rw [hks] at hl; simp at hl
          · intro hrest
            obtain ⟨l, hl⟩ := ih.mpr hrest
            exact ⟨(k, analyzeScript k s) :: l, by rw [hl]⟩

theorem scriptsResult_ok_iff (pj : JsonValue) :
    (∃ l, scriptsResult pj = .ok l) ↔ specLifecycleValuesOK pj := by
  unfold scriptsResult specLifecycleValuesOK
  cases hg : getField pj "scripts" with
  | none => simp
  | some sv =>
    cases ht : truthy sv with
    | false => simp [ht]
    | true =>
      simp only [ht, if_true, true_implies]
      exact analyzeKeys_ok_iff sv dangerousScripts

theorem scanParsed_typeError (v : JsonValue)
    (hbad : v = JsonValue.null ∨ ¬ specLifecycleValuesOK v) :
    scanParsed v = .error .typeError := by
  rcases hbad with rfl | hnotok
  · rfl
  · have hs : scriptsResult v = .error .typeError := by
      cases hres : scriptsResult v with
      | ok l => exact absurd ((scriptsResult_ok_iff v).mp ⟨l, hres⟩) hnotok
      | error e => rw [scriptsResult_error v e hres]
    cases v with
    | null => rfl
    | bool b => simp [scanParsed, hs]
    | num n => simp [scanParsed, hs]
    | str s => simp [scanParsed, hs]
    | arr a => simp [scanParsed, hs]
    | obj o => simp [scanParsed, hs]

/-- Claim C9, counterexample to the claim as stated: an existing file whose
content is well-formed JSON metadata on which the single-file scan raises a
TypeError, which is neither a successful return nor a FileNotFound nor a
ParseError. -/
theorem c9_counterexample :
    scanPackageJson truthyNonStringNode = .error .typeError ∧
    ScanErr.typeError ≠ ScanErr.parseError ∧
    ScanErr.typeError ≠ ScanErr.notFound := by
  refine ⟨rfl, by decide, by decide⟩

/-- Claim C9 (amended): the single-file scan raises the not-found error
exactly when the path does not exist and the parse error exactly when the
file exists but its content does not parse; for parseable content it
returns a result exactly when the document is not null and every truthy
lifecycle value is a string, and otherwise raises a TypeError; reading a
directory or an unreadable file raises an IO error instead. -/
theorem c9_single_scan_errors (node : Option FsNode) :
    (scanPackageJson node = .error .notFound ↔ node = none) ∧
    (scanPackageJson node = .error .parseError ↔ node = some (.file .malformed)) ∧
    (∀ v, node = some (.file (.jsonData v)) →
      ((∃ r, scanPackageJson node = .ok r) ↔
        (v ≠ JsonValue.null ∧ specLifecycleValuesOK v))) ∧
    (∀ v, node = some (.file (.jsonData v)) →
      (v = JsonValue.null ∨ ¬ specLifecycleValuesOK v) →
      scanPackageJson node = .error .typeError) ∧
    (∀ es, node = some (.dir es) → scanPackageJson node = .error .ioError) ∧
    (node = some (.file .unreadable) → scanPackageJson node = .error .ioError) := by
  cases node with
  | none =>
    refine ⟨by simp [scanPackageJson], by simp [scanPackageJson], ?_, ?_, ?_, ?_⟩
    · intro v hv
      simp at hv
    · intro v hv
      simp at hv
    · intro es hv
      simp at hv
    · intro hv
      simp at hv
  | some n =>
    cases n with
    | dir es =>
      refine ⟨by simp [scanPackageJson, readPackageFile], by simp [scanPackageJson, readPackageFile], ?_, ?_, ?_, ?_⟩
      · intro v hv
        simp at hv
      · intro v hv
        simp at hv
      · intro es2 hv
        rfl
      · intro hv
        simp at hv
    | file d =>
      cases d with
      | malformed =>
        refine ⟨by simp [scanPackageJson, readPackageFile], by simp [scanPackageJson, readPackageFile], ?_, ?_, ?_, ?_⟩
        · intro v hv
          simp at hv
        · intro v hv
          simp at hv
        · intro es hv
          simp at hv
        · intro hv
          simp at hv
      | unreadable =>
        refine ⟨by simp [scanPackageJson, readPackageFile], by simp [scanPackageJson, readPackageFile], ?_, ?_, ?_, ?_⟩
        · intro v hv
          simp at hv
        · intro v hv
          simp at hv
        · intro es hv
          simp at hv
        · intro hv
          rfl
      | jsonData w =>
        refine ⟨?_, ?_, ?_, ?_, ?_, ?_⟩
        · simp only [scanPackageJson, readPackageFile]
          constructor
          · intro hcontra
            exact absurd (scanParsed_error _ _ hcontra) (by decide)
          · intro hcontra
            simp at hcontra
        · simp only [scanPackageJson, readPackageFile]
          constructor
          · intro hcontra
            exact absurd (scanParsed_error _ _ hcontra) (by decide)
          · intro hcontra
            simp at hcontra
        · intro v hv
          simp only [Option.some.injEq, FsNode.file.injEq, FileData.jsonData.injEq] at hv
          subst hv
          simp only [scanPackageJson, readPackageFile]
          cases w with
          | null =>
            simp [scanParsed]
          | bool b =>
            have h1 : (∃ r, scanParsed (JsonValue.bool b) = .ok r) ↔
                (∃ l, scriptsResult (JsonValue.bool b) = .ok l) := by
              cases hs : scriptsResult (JsonValue.bool b) with
              | error e => simp [scanParsed, hs]
              | ok l => simp [scanParsed, hs]
            rw [h1, scriptsResult_ok_iff]
            simp
          | num n =>
            have h1 : (∃ r, scanParsed (JsonValue.num n) = .ok r) ↔
                (∃ l, scriptsResult (JsonValue.num n) = .ok l) := by
              cases hs : scriptsResult (JsonValue.num n) with
              | error e => simp [scanParsed, hs]
              | ok l => simp [scanParsed, hs]
            rw [h1, scriptsResult_ok_iff]
            simp
          | str s =>
            have h1 : (∃ r, scanParsed (JsonValue.str s) = .ok r) ↔
                (∃ l, scriptsResult (JsonValue.str s) = .ok l) := by
              cases hs : scriptsResult (JsonValue.str s) with
              | error e => simp [scanParsed, hs]
              | ok l => simp [scanParsed, hs]
            rw [h1, scriptsResult_ok_iff]
            simp
          | arr a =>
            have h1 : (∃ r, scanParsed (JsonValue.arr a) = .ok r) ↔
                (∃ l, scriptsResult (JsonValue.arr a) = .ok l) := by
              cases hs : scriptsResult (JsonValue.arr a) with
              | error e => simp [scanParsed, hs]
              | ok l => simp [scanParsed, hs]
            rw [h1, scriptsResult_ok_iff]
            simp
          | obj o =>
            have h1 : (∃ r, scanParsed (JsonValue.obj o) = .ok r) ↔
                (∃ l, scriptsResult (JsonValue.obj o) = .ok l) := by
              cases hs : scriptsResult (JsonValue.obj o) with
              | error e => simp [scanParsed, hs]
              | ok l => simp [scanParsed, hs]
            rw [h1, scriptsResult_ok_iff]
            simp
        · intro v hv hbad
          simp only [Option.some.injEq, FsNode.file.injEq, FileData.jsonData.injEq] at hv
          subst hv
          simp only [scanPackageJson, readPackageFile]
          exact scanParsed_typeError _ hbad
        · intro es hv
          simp at hv
        · intro hv
          simp at hv

/-- Witness for the amended claim C9 at the missing-file input and at a
metadata document binding a lifecycle key to a truthy non-string value. -/
theorem c9_single_scan_errors_witness :
    scanPackageJson none = .error .notFound ∧
    scanPackageJson truthyNonStringNode = .error .typeError :=
  ⟨(c9_single_scan_errors none).1.mpr rfl,
   (c9_single_scan_errors truthyNonStringNode).2.2.2.1
     (.obj [("scripts", .obj [("install", .num 42)])]) rfl
     (Or.inr fun hok => absurd (hok rfl "install" (by decide) rfl) (by decide))⟩

theorem getField_some_obj (v : JsonValue) (key : String) (x : JsonValue)
    (h : getField v key = some x) : ∃ fields, v = .obj fields := by
  cases v with
  | obj fields => exact ⟨fields, rfl⟩
  | null => simp [getField] at h
  | bool b => simp [getField] at h
  | num n => simp [getField] at h
  | str s => simp [getField] at h
  | arr a => simp [getField] at h

/-- Claim C10: a metadata document binding a lifecycle key to a truthy
non-string value makes the single-file scan raise (a TypeError from calling
string matching on the value), and a tree scan over a root containing such
a package returns no result for it. -/
theorem c10_truthy_nonstring_raises (v sv val : JsonValue) (key : String)
    (hkey : key ∈ dangerousScripts)
    (hsv : getField v "scripts" = some sv) (hsvT : truthy sv = true)
    (hval : getField sv key = some val) (hvalT : truthy val = true)
    (hns : isStr val = false) :
    scanPackageJson (some (.file (.jsonData v))) = .error .typeError ∧
    scanNodeModules [("badpkg", .dir [("package.json", .file (.jsonData v))])] = [] := by
  obtain ⟨fields, rfl⟩ := getField_some_obj v "scripts" sv hsv
  have hbadkey : ¬ specKeyOK sv key := by
    simp only [specKeyOK, hval]
    intro hcontra
    rw [hcontra hvalT] at hns
    cases hns
  have herr : analyzeKeys sv dangerousScripts = .error .typeError := by
    cases hres : analyzeKeys sv dangerousScripts with
    | ok l =>
      exact absurd ((analyzeKeys_ok_iff sv dangerousScripts).mp ⟨l, hres⟩ key hkey) hbadkey
    | error e =>
      rw [analyzeKeys_error_typeError sv dangerousScripts e hres]
  have hscan : scanPackageJson (some (.file (.jsonData (JsonValue.obj fields)))) =
      .error .typeError := by
    simp only [scanPackageJson, readPackageFile, scanParsed, scriptsResult, hsv, hsvT,
      if_true, herr]
  refine ⟨hscan, ?_⟩
  have hb3 : lookupEntry [("package.json", FsNode.file (.jsonData (JsonValue.obj fields)))]
      "package.json" = some (.file (.jsonData (JsonValue.obj fields))) := rfl
  simp [scanNodeModules, scanNodeModulesTraced, scanTopEntry, FsNode.isDir,
    FsNode.childEntries,
    show strStartsWith "badpkg" "." = false by decide,
    show strStartsWith "badpkg" "@" = false by decide,
    hb3, hscan, tryCollect]

/-- Witness for claim C10 at a metadata document whose install script is
the number 42. -/
theorem c10_truthy_nonstring_raises_witness :
    "install" ∈ dangerousScripts ∧
    truthy (JsonValue.num 42) = true ∧
    isStr (JsonValue.num 42) = false ∧
    scanPackageJson truthyNonStringNode = .error .typeError ∧
    scanNodeModules [("badpkg", .dir [("package.json", .file (.jsonData (.obj
      [("scripts", .obj [("install", .num 42)])])))])] = [] :=
  ⟨by decide, rfl, rfl,
    c10_truthy_nonstring_raises (.obj [("scripts", .obj [("install", .num 42)])])
      (.obj [("install", .num 42)]) (.num 42) "install" (by decide) rfl rfl rfl rfl rfl⟩
